import Mathlib

/-!
Verification development for the `oref_alert` repository.

Part A embeds `custom_components/oref_alert/geo_location.py`: the
`OrefAlertLocationEventManager` reconciler that keeps a mapping from
area names to geolocation entities in sync with the coordinator's
active-alerts list.

Part B embeds `scripts/generate_metadata.py`: the offline metadata
generator that merges upstream datasets into static lookup tables.

Python dictionaries are modelled as association lists (`List (k × v)`);
Python sets are modelled by lists with membership/`dedup`.  External
host-platform utilities (`dt_util.parse_datetime`, `slugify`,
`haversine`, `time.time`) are outside the repository; fields derived
only from them (entity unique-id slug, distance) are not modelled, and
the alert date payload is carried as the raw `alertDate` string, which
every claim treats as opaque.
-/

namespace OrefAlert

/-- An element of `coordinator.data.active_alerts`: `alert["data"]` is the
area name, `alert["alertDate"]` the timestamp string. -/
structure Alert where
  data : String
  alertDate : String
deriving DecidableEq

/-- A record of the `AREA_INFO` table (`metadata/area_info.py`):
latitude, longitude and English name of an area. -/
structure AreaInfoRec where
  lat : ℚ
  long : ℚ
  en : String
deriving DecidableEq

/-- The `AREA_INFO` table, a dict from area name to its record. -/
abbrev AreaInfoTable := List (String × AreaInfoRec)

/-- `OrefAlertLocationEvent`: the geolocation entity.  `name` is the area,
`latitude`/`longitude` come from `AREA_INFO[area]`, `date` is the
`ATTR_DATE` extra attribute. -/
structure OrefAlertLocationEvent where
  name : String
  latitude : ℚ
  longitude : ℚ
  date : Option String
deriving DecidableEq

/-- `OrefAlertLocationEvent.__init__`: indexes `AREA_INFO[area]` (a
`KeyError`, i.e. `none`, when the area has no metadata) and fills in the
entity fields. -/
def OrefAlertLocationEvent.init (areaInfo : AreaInfoTable) (area : String)
    (date : Option String) : Option OrefAlertLocationEvent :=
  match areaInfo.lookup area with
  | some info => some ⟨area, info.lat, info.long, date⟩
  | none => none

/-- `OrefAlertLocationEventManager._alert_date`: the date of the first
active alert whose `data` equals the area (the raw string stands for the
parsed datetime, which no claim inspects). -/
def alertDateOf (alerts : List Alert) (area : String) : Option String :=
  (alerts.find? (fun a => a.data == area)).map (·.alertDate)

/-- Sequencing of a fallible map over a list (a Python dict/list
comprehension whose body may raise): `none` when any element fails. -/
def optionTraverse {α β : Type} (f : α → Option β) : List α → Option (List β)
  | [] => some []
  | a :: l => do
    let b ← f a
    let r ← optionTraverse f l
    return b :: r

/-- The manager's mutable state: `_location_events` (dict from area name
to entity) and the number of `_cleanup_entities` tasks that have been
created by `async_create_task` and have not yet finished. -/
structure ManagerState where
  locationEvents : List (String × OrefAlertLocationEvent)
  pendingCleanups : Nat
deriving DecidableEq

/-- The set `{alert["data"] for alert in active_alerts}` as a list (used
for membership only). -/
def activeAreas (alerts : List Alert) : List String :=
  alerts.map (·.data)

/-- The local `active` of `_async_update` (deduplicated, since the Python
value is a set). -/
def updActive (alerts : List Alert) : List String :=
  (activeAreas alerts).dedup

/-- The local `exists` of `_async_update`: the keys of
`_location_events`. -/
def updExisting (s : ManagerState) : List String :=
  s.locationEvents.map (·.1)

/-- The areas iterated by the `to_add` dict comprehension of
`_async_update`: `active - exists`, restricted by the
`if area in AREA_INFO` guard. -/
def updAddAreas (areaInfo : AreaInfoTable) (alerts : List Alert)
    (s : ManagerState) : List String :=
  (updActive alerts).filter
    (fun a => a ∉ updExisting s && (areaInfo.lookup a).isSome)

/-- The pending-cleanup count after `_async_update`: one task is created
by `async_create_task` when `exists - active` is non-empty
(`if len(exists - active):`). -/
def updPending (alerts : List Alert) (s : ManagerState) : Nat :=
  if ((updExisting s).filter (fun a => a ∉ updActive alerts)).length ≠ 0 then
    s.pendingCleanups + 1
  else
    s.pendingCleanups

/-- `OrefAlertLocationEventManager._async_update`: builds an entity for
each area of `active - exists` passing the `area in AREA_INFO` guard,
merges `to_add` into `_location_events`, hands the new entities to
`async_add_entities` (returned as the second component), and schedules
one `_cleanup_entities` task when `exists - active` is non-empty.
`none` models a Python exception escaping the update. -/
def asyncUpdate (areaInfo : AreaInfoTable) (alerts : List Alert)
    (s : ManagerState) : Option (ManagerState × List OrefAlertLocationEvent) := do
  let toAdd ← optionTraverse
    (fun a => (OrefAlertLocationEvent.init areaInfo a (alertDateOf alerts a)).map
      (fun e => (a, e)))
    (updAddAreas areaInfo alerts s)
  return (⟨s.locationEvents ++ toAdd, updPending alerts s⟩, toAdd.map (·.2))

/-- The debounce delay of `_cleanup_entities`: the argument of
`await asyncio.sleep(10)  # Wait for a stable state.` -/
def cleanupDelaySeconds : Nat := 10

/-- `OrefAlertLocationEventManager._cleanup_entities`, observed at the
moment the 10-second sleep ends: re-reads the active-alerts list
(`alertsLater`), and pops and removes every mapped area not active at
that time.  The task finishes, so the pending-task count drops by one. -/
def cleanupEntities (alertsLater : List Alert) (s : ManagerState) : ManagerState :=
  ⟨s.locationEvents.filter (fun p => p.1 ∈ activeAreas alertsLater),
   s.pendingCleanups - 1⟩

/-- An entity-registry entry, as used by `_async_clean_start`: its
`entity_id`, the config entry owning it, and its platform domain. -/
structure RegistryEntry where
  entityId : String
  configEntryId : String
  domain : String
deriving DecidableEq

/-- `Platform.GEO_LOCATION`. -/
def GEO_LOCATION : String := "geo_location"

/-- `er.async_entries_for_config_entry`. -/
def asyncEntriesForConfigEntry (registry : List RegistryEntry)
    (entryId : String) : List RegistryEntry :=
  registry.filter (fun e => e.configEntryId == entryId)

/-- `entity_registry.async_remove(entity_id)`: the registry is keyed by
`entity_id`, so removal drops the entries with that id. -/
def asyncRemove (registry : List RegistryEntry) (eid : String) :
    List RegistryEntry :=
  registry.filter (fun e => e.entityId ≠ eid)

/-- `OrefAlertLocationEventManager._async_clean_start`: remove every
entry of this config entry whose domain is `geo_location`. -/
def asyncCleanStart (entryId : String) (registry : List RegistryEntry) :
    List RegistryEntry :=
  (asyncEntriesForConfigEntry registry entryId).foldl
    (fun reg entry =>
      if entry.domain == GEO_LOCATION then asyncRemove reg entry.entityId else reg)
    registry

/-- `OrefAlertLocationEventManager.__init__`: clean start on the entity
registry, then (after subscribing to the coordinator) the first
`_async_update` on the empty mapping. -/
def managerInit (areaInfo : AreaInfoTable) (entryId : String)
    (registry : List RegistryEntry) (alerts : List Alert) :
    Option (List RegistryEntry × ManagerState × List OrefAlertLocationEvent) := do
  let registryAfter := asyncCleanStart entryId registry
  let (s, added) ← asyncUpdate areaInfo alerts ⟨[], 0⟩
  return (registryAfter, s, added)

/-! ## Part B: `scripts/generate_metadata.py` -/

/-- A record of the `GetCitiesMix.aspx` dataset: its Hebrew label and its
protected-space ("migun") time in seconds (`int(area["migun_time"])` in
the script; the field is carried as an integer). -/
structure CityMixRec where
  label_he : String
  migun_time : Int
deriving DecidableEq

/-- Python's code-point lexicographic string comparison, on the
character lists underlying the strings (`a <= b` for `str`). -/
def charListLe : List Char → List Char → Bool
  | [], _ => true
  | _ :: _, [] => false
  | c :: cs, d :: ds =>
    if c.toNat < d.toNat then true
    else if d.toNat < c.toNat then false
    else charListLe cs ds

/-- Python's `<=` on strings, as a proposition. -/
def pyLe (a b : String) : Prop :=
  charListLe a.data b.data = true

instance : DecidableRel pyLe :=
  fun a b => inferInstanceAs (Decidable (charListLe a.data b.data = true))

/-- Python's `str.replace` on character lists: replaces every
non-overlapping occurrence of `pattern` left-to-right (the script's
patterns are never empty; an empty pattern is left untouched).  `fuel`
makes the recursion structural; it is instantiated with the length of
the subject, which suffices since every step consumes at least one
character. -/
def charListReplace (pattern repl : List Char) : Nat → List Char → List Char
  | _, [] => []
  | 0, l => l
  | fuel + 1, c :: rest =>
    if pattern ≠ [] && pattern.isPrefixOf (c :: rest) then
      repl ++ charListReplace pattern repl fuel ((c :: rest).drop pattern.length)
    else
      c :: charListReplace pattern repl fuel rest

/-- Python's `str.replace`. -/
def strReplace (s pattern repl : String) : String :=
  ⟨charListReplace pattern.data repl.data s.data.length s.data⟩

/-- Python's `str.startswith`. -/
def strStartsWith (s pre : String) : Bool :=
  List.isPrefixOf pre.data s.data

/-- Python's `str.endswith`. -/
def strEndsWith (s post : String) : Bool :=
  List.isSuffixOf post.data s.data

/-- Python's `list.sort()` on strings: an ascending stable sort for the
code-point lexicographic order (modelled by insertion sort, which agrees
with any stable sort because equal strings are indistinguishable). -/
def pysort (l : List String) : List String :=
  l.insertionSort pyLe

/-- `CITY_ALL_AREAS_SUFFIX`. -/
def CITY_ALL_AREAS_SUFFIX : String := " - כל האזורים"

/-- `CITY_ALL_AREAS_SUFFIX_TYPO` ("Hadera all areas" is listed with this
typo). -/
def CITY_ALL_AREAS_SUFFIX_TYPO : String := " כל - האזורים"

/-- `DISTRICT_PREFIX` of the script (the Hebrew word for "district"
followed by a space), prepended to district names. -/
def DISTRICT_PFX : String := "מחוז "

/-- The label normalization applied to `label_he` throughout the script:
`.replace(CITY_ALL_AREAS_SUFFIX_TYPO, CITY_ALL_AREAS_SUFFIX)`. -/
def normalizeLabel (s : String) : String :=
  strReplace s CITY_ALL_AREAS_SUFFIX_TYPO CITY_ALL_AREAS_SUFFIX

/-- `OrefMetadata._get_areas`: the sorted deduplicated list of normalized
`label_he` values of the cities-mix dataset (`list({...})` then
`.sort()`). -/
def getAreas (citiesMix : List CityMixRec) : List String :=
  pysort ((citiesMix.map (fun r => normalizeLabel r.label_he)).dedup)

/-- `self._areas_no_group`: backend areas that do not end with the
all-areas suffix. -/
def areasNoGroup (backendAreas : List String) : List String :=
  backendAreas.filter (fun area => !(strEndsWith area CITY_ALL_AREAS_SUFFIX))

/-- `OrefMetadata._get_cities_with_all_areas`: backend areas ending with
the all-areas suffix, with the suffix stripped, sorted. -/
def getCitiesWithAllAreas (backendAreas : List String) : List String :=
  pysort ((backendAreas.filter (fun area => strEndsWith area CITY_ALL_AREAS_SUFFIX)).map
    (fun area => strReplace area CITY_ALL_AREAS_SUFFIX ""))

/-- Python `dict[k] = v`: replace the value in place when the key exists,
append the pair otherwise (dicts preserve insertion order). -/
def dictInsert {β : Type} (m : List (String × β)) (k : String) (v : β) :
    List (String × β) :=
  if m.any (fun p => p.1 == k) then
    m.map (fun p => if p.1 == k then (k, v) else p)
  else
    m ++ [(k, v)]

/-- `OrefMetadata._city_to_areas_map`: a dict built by assignment in a
loop over the cities with an "all areas" entry; the key
`city + CITY_ALL_AREAS_SUFFIX` maps to the deduplicated sorted list of
non-group areas starting with the city name.  When two all-areas labels
strip to the same city the assignment repeats with an identical key and
value, and the dict holds the key once. -/
def cityToAreasMap (backendAreas noGroup : List String) :
    List (String × List String) :=
  (getCitiesWithAllAreas backendAreas).foldl
    (fun m city =>
      dictInsert m (city ++ CITY_ALL_AREAS_SUFFIX)
        (pysort ((noGroup.filter (fun area => strStartsWith area city)).dedup)))
    []

/-- The dict comprehension of `OrefMetadata._area_to_migun_time_map`:
normalized label to `migun_time`, later records overwriting earlier ones
with the same key. -/
def migunTimeDict (citiesMix : List CityMixRec) : List (String × Int) :=
  citiesMix.foldl
    (fun m r => dictInsert m (normalizeLabel r.label_he) r.migun_time) []

/-- `OrefMetadata._area_to_migun_time_map`: the same dict rebuilt with its
keys in sorted order (every lookup succeeds since the keys come from the
dict itself). -/
def areaToMigunTimeMap (citiesMix : List CityMixRec) : List (String × Int) :=
  let m := migunTimeDict citiesMix
  (pysort (m.map (·.1))).filterMap (fun k => (m.lookup k).map (fun v => (k, v)))

/-- A record of the `GetDistricts.aspx` dataset. -/
structure DistrictRec where
  value : Option String
  label : String
  areaname : String
  label_he : String
deriving DecidableEq

/-- `OrefMetadata._get_districts`: drop records with a null `value` or a
country-wide label. -/
def getDistricts (districts : List DistrictRec) : List DistrictRec :=
  districts.filter (fun d =>
    d.value.isSome && !(d.label == "כל הארץ") && !(d.label == "ברחבי הארץ"))

/-- `OrefMetadata._district_to_areas_map`: for each district name, the
deduplicated sorted list of its member areas that are non-group backend
areas; the `assert area["label_he"] not in self._city_to_areas` is
modelled by the `Option` guard. -/
def districtToAreasMap (districtsRaw : List DistrictRec)
    (noGroup : List String) (cityToAreas : List (String × List String)) :
    Option (List (String × List String)) := do
  let districts := getDistricts districtsRaw
  let districtNames := pysort ((districts.map (·.areaname)).dedup)
  optionTraverse (fun district => do
    let matching := districts.filter (fun a =>
      a.areaname == district && decide (a.label_he ∈ noGroup))
    guard (matching.all (fun a => (cityToAreas.lookup a.label_he).isNone))
    return (DISTRICT_PFX ++ district,
            pysort ((matching.map (·.label_he)).dedup)))
    districtNames

/-- The `AREAS_AND_GROUPS` construction of `OrefMetadata.__init__`:
concatenate non-group areas with the city-group and district-group keys,
sort, and assert the absence of duplicates
(`len(list) == len(set(list))`). -/
def mkAreasAndGroups (noGroup cityKeys districtKeys : List String) :
    Option (List String) :=
  let l := pysort (noGroup ++ cityKeys ++ districtKeys)
  if l.length = l.dedup.length then some l else none

/-- The full `AREAS_AND_GROUPS` pipeline from the two upstream datasets,
as run by `OrefMetadata.__init__`. -/
def areasAndGroups (citiesMix : List CityMixRec)
    (districtsRaw : List DistrictRec) : Option (List String) := do
  let backendAreas := getAreas citiesMix
  let noGroup := areasNoGroup backendAreas
  let cityToAreas := cityToAreasMap backendAreas noGroup
  let districtToAreas ← districtToAreasMap districtsRaw noGroup cityToAreas
  mkAreasAndGroups noGroup (cityToAreas.map (·.1)) (districtToAreas.map (·.1))

/-- A record of the tzevaadom `cities.json` dataset. -/
structure TzevaCity where
  id : Int
  lat : ℚ
  lng : ℚ
  en : String
deriving DecidableEq

/-- The `MISSING_CITIES` table of the script: hard-coded coordinates for
backend areas absent from the tzevaadom dataset. -/
def MISSING_CITIES : List (String × AreaInfoRec) :=
  [("ברחבי הארץ", ⟨(317781 : ℚ) / 10000, (352164 : ℚ) / 10000, "Across the country"⟩),
   ("גני מודיעין", ⟨(319304 : ℚ) / 10000, (350177 : ℚ) / 10000, "Ganei Modi\x27in"⟩),
   ("מלאה", ⟨(325629 : ℚ) / 10000, (352366 : ℚ) / 10000, "Mle\x27a"⟩),
   ("כל הארץ", ⟨(317781 : ℚ) / 10000, (352164 : ℚ) / 10000, "Entire country"⟩),
   ("כרם בן שמן", ⟨(319585 : ℚ) / 10000, (349340 : ℚ) / 10000, "Kerem Ben Shemen"⟩),
   ("ניר יפה", ⟨(325698 : ℚ) / 10000, (352448 : ℚ) / 10000, "Nir Yafeh"⟩),
   ("נאות חובב", ⟨(311336 : ℚ) / 10000, (347898 : ℚ) / 10000, "Ne\x27ot Hovav"⟩),
   ("גדיש", ⟨(325588 : ℚ) / 10000, (352444 : ℚ) / 10000, "Gadish"⟩),
   ("רמת רחל", ⟨(317395 : ℚ) / 10000, (352178 : ℚ) / 10000, "Ramat Rachel"⟩),
   ("בסמ\"ה", ⟨(325307 : ℚ) / 10000, (351025 : ℚ) / 10000, "Basma"⟩),
   ("מרכז אומן", ⟨(325638 : ℚ) / 10000, (352425 : ℚ) / 10000, "Merkaz Omen"⟩),
   ("עין חרוד איחוד", ⟨(325631 : ℚ) / 10000, (353917 : ℚ) / 10000, "Ein Harod"⟩),
   ("אל-ח\x27וואלד מערב", ⟨(32771 : ℚ) / 1000, (351363 : ℚ) / 10000, "Al Khawaled - West"⟩),
   ("אשדוד -יא,יב,טו,יז,מרינה,סיטי",
    ⟨(317836 : ℚ) / 10000, (346332 : ℚ) / 10000,
     "Ashdod - Yod Alef,Yod Bet,Tet Vav,Yod Zain,Marina,City"⟩),
   ("אזור תעשייה מילואות צפון",
    ⟨(330684 : ℚ) / 10000, (351102 : ℚ) / 10000, "North Miluot Industrial Zone"⟩)]

/-- `OrefMetadata._get_area_to_polygon`: keys are the sorted intersection
of the tzevaadom city names with the non-group areas, restricted to the
cities whose id (as a string) appears in the polygons dataset; each key
maps to that polygon entry. -/
def getAreaToPolygon (tzevaCities : List (String × TzevaCity))
    (tzevaPolygons : List (String × List (List ℚ)))
    (noGroup : List String) : List (String × List (List ℚ)) :=
  let cityList := pysort (((tzevaCities.map (·.1)).filter
    (fun c => decide (c ∈ noGroup))).dedup)
  cityList.filterMap (fun city => do
    let c ← tzevaCities.lookup city
    let poly ← tzevaPolygons.lookup (toString c.id)
    return (city, poly))

/-- `OrefMetadata._get_area_info`: both asserts (key-set disjointness of
`MISSING_CITIES` and the tzevaadom cities, and coverage of every
non-group area) are modelled as guards; each non-group area takes its
`lat`/`long`/`en` from the tzevaadom record when present, and from
`MISSING_CITIES` otherwise (a missing key there is a `KeyError`, i.e.
`none`). -/
def getAreaInfo (noGroup : List String)
    (tzevaCities : List (String × TzevaCity)) :
    Option (List (String × AreaInfoRec)) := do
  guard ((MISSING_CITIES.map (·.1)).all
    (fun k => (tzevaCities.lookup k).isNone))
  guard (noGroup.all (fun a =>
    (tzevaCities.lookup a).isSome || (MISSING_CITIES.lookup a).isSome))
  optionTraverse
    (fun area =>
      match tzevaCities.lookup area with
      | some c => some (area, AreaInfoRec.mk c.lat c.lng c.en)
      | none => (MISSING_CITIES.lookup area).map (fun info => (area, info)))
    noGroup

/-! ## Helper lemmas -/

theorem lookup_eq_none_iff {β : Type} (l : List (String × β)) (a : String) :
    l.lookup a = none ↔ a ∉ l.map Prod.fst := by
  induction l with
  | nil => simp [List.lookup]
  | cons p l ih =>
    obtain ⟨k, v⟩ := p
    by_cases hak : a = k
    · subst hak
      simp [List.lookup]
    · simp [List.lookup, beq_eq_false_iff_ne.mpr hak, ih, hak]

theorem mem_of_lookup_eq_some {β : Type} {l : List (String × β)} {a : String}
    {b : β} (h : l.lookup a = some b) : (a, b) ∈ l := by
  induction l with
  | nil => simp [List.lookup] at h
  | cons p l ih =>
    obtain ⟨k, v⟩ := p
    by_cases hak : a = k
    · subst hak
      simp [List.lookup] at h
      simp [h]
    · rw [List.lookup, beq_eq_false_iff_ne.mpr hak] at h
      exact List.mem_cons_of_mem _ (ih h)

theorem optionTraverse_isSome {α β : Type} (f : α → Option β) (l : List α)
    (h : ∀ a ∈ l, (f a).isSome) : (optionTraverse f l).isSome := by
  induction l with
  | nil => simp [optionTraverse]
  | cons a l ih =>
    obtain ⟨b, hb⟩ := Option.isSome_iff_exists.mp (h a (List.mem_cons_self a l))
    obtain ⟨r, hr⟩ := Option.isSome_iff_exists.mp
      (ih (fun x hx => h x (List.mem_cons_of_mem a hx)))
    simp [optionTraverse, hb, hr]

theorem optionTraverse_forall₂ {α β : Type} (f : α → Option β) :
    ∀ (l : List α) (r : List β), optionTraverse f l = some r →
      List.Forall₂ (fun a b => f a = some b) l r := by
  intro l
  induction l with
  | nil =>
    intro r h
    obtain rfl : ([] : List β) = r := Option.some.inj h
    exact List.Forall₂.nil
  | cons a l ih =>
    intro r h
    rw [optionTraverse] at h
    cases hfa : f a with
    | none => rw [hfa] at h; simp at h
    | some b =>
      rw [hfa] at h
      cases hfl : optionTraverse f l with
      | none => rw [hfl] at h; simp at h
      | some bs =>
        rw [hfl] at h
        have hbr : b :: bs = r := Option.some.inj h
        subst hbr
        exact List.Forall₂.cons hfa (ih bs hfl)

theorem forall₂_mem_left {α β : Type} {R : α → β → Prop} {l : List α}
    {r : List β} (h : List.Forall₂ R l r) : ∀ a ∈ l, ∃ b ∈ r, R a b := by
  induction h with
  | nil => intro a ha; simp at ha
  | cons hR hF ih =>
    intro x hx
    rcases List.mem_cons.mp hx with rfl | hx
    · exact ⟨_, List.mem_cons_self _ _, hR⟩
    · obtain ⟨b, hb, hRb⟩ := ih x hx
      exact ⟨b, List.mem_cons_of_mem _ hb, hRb⟩

theorem forall₂_mem_right {α β : Type} {R : α → β → Prop} {l : List α}
    {r : List β} (h : List.Forall₂ R l r) : ∀ b ∈ r, ∃ a ∈ l, R a b := by
  induction h with
  | nil => intro b hb; simp at hb
  | cons hR hF ih =>
    intro y hy
    rcases List.mem_cons.mp hy with rfl | hy
    · exact ⟨_, List.mem_cons_self _ _, hR⟩
    · obtain ⟨a, ha, hRa⟩ := ih y hy
      exact ⟨a, List.mem_cons_of_mem _ ha, hRa⟩

theorem init_isSome (areaInfo : AreaInfoTable) (area : String)
    (date : Option String) (h : (areaInfo.lookup area).isSome) :
    (OrefAlertLocationEvent.init areaInfo area date).isSome := by
  unfold OrefAlertLocationEvent.init
  cases hl : areaInfo.lookup area with
  | none => rw [hl] at h; simp at h
  | some info => simp

theorem init_name {areaInfo : AreaInfoTable} {area : String}
    {date : Option String} {e : OrefAlertLocationEvent}
    (h : OrefAlertLocationEvent.init areaInfo area date = some e) :
    e.name = area := by
  unfold OrefAlertLocationEvent.init at h
  cases hl : areaInfo.lookup area with
  | none => rw [hl] at h; simp at h
  | some info =>
    rw [hl] at h
    obtain rfl := Option.some.inj h
    rfl

/-- Structure of a successful `_async_update`: the result always exists,
the mapping grows by `to_add` (whose entries correspond pointwise to the
areas of `active - exists` passing the `AREA_INFO` guard), and the
pending-task count becomes `updPending`. -/
theorem asyncUpdate_spec (areaInfo : AreaInfoTable) (alerts : List Alert)
    (s : ManagerState) :
    ∃ toAdd : List (String × OrefAlertLocationEvent),
      asyncUpdate areaInfo alerts s =
        some (⟨s.locationEvents ++ toAdd, updPending alerts s⟩,
          toAdd.map (·.2)) ∧
      List.Forall₂ (fun a (p : String × OrefAlertLocationEvent) =>
          p.1 = a ∧ p.2.name = a ∧
          OrefAlertLocationEvent.init areaInfo a (alertDateOf alerts a) = some p.2)
        (updAddAreas areaInfo alerts s) toAdd := by
  have hsome : ∀ a ∈ updAddAreas areaInfo alerts s,
      ((OrefAlertLocationEvent.init areaInfo a (alertDateOf alerts a)).map
        (fun e => (a, e))).isSome := by
    intro a ha
    rw [updAddAreas, List.mem_filter] at ha
    have hb := ha.2
    simp only [Bool.and_eq_true] at hb
    have := init_isSome areaInfo a (alertDateOf alerts a) hb.2
    cases hini : OrefAlertLocationEvent.init areaInfo a (alertDateOf alerts a) with
    | none => rw [hini] at this; simp at this
    | some e => simp [hini]
  obtain ⟨toAdd, hmapM⟩ :=
    Option.isSome_iff_exists.mp (optionTraverse_isSome _ _ hsome)
  refine ⟨toAdd, ?_, ?_⟩
  · unfold asyncUpdate
    rw [hmapM]
    rfl
  · refine (optionTraverse_forall₂ _ _ _ hmapM).imp ?_
    intro a p hap
    obtain ⟨e, he, hp⟩ := Option.map_eq_some'.mp hap
    refine ⟨?_, ?_, ?_⟩
    · rw [← hp]
    · rw [← hp]; exact init_name he
    · rw [← hp]; exact he

/-- Any entry added by `_async_update` has an area passing the guard:
its key equals the entity's name, the area was not previously mapped,
and `AREA_INFO` contains it. -/
theorem toAdd_mem_spec {areaInfo : AreaInfoTable} {alerts : List Alert}
    {s : ManagerState} {toAdd : List (String × OrefAlertLocationEvent)}
    (hF : List.Forall₂ (fun a (p : String × OrefAlertLocationEvent) =>
        p.1 = a ∧ p.2.name = a ∧
        OrefAlertLocationEvent.init areaInfo a (alertDateOf alerts a) = some p.2)
      (updAddAreas areaInfo alerts s) toAdd)
    {p : String × OrefAlertLocationEvent} (hp : p ∈ toAdd) :
    p.2.name = p.1 ∧ p.1 ∉ updExisting s ∧ (areaInfo.lookup p.1).isSome := by
  obtain ⟨a, ha, h1, h2, -⟩ := forall₂_mem_right hF p hp
  rw [updAddAreas, List.mem_filter] at ha
  have hb := ha.2
  simp only [Bool.and_eq_true, decide_eq_true_eq] at hb
  subst h1
  exact ⟨h2, hb.1, hb.2⟩

/-- C1: the claim as frozen states that an entity is created for *every*
active area with no entity in the mapping; the `if area in AREA_INFO`
guard of `_async_update` makes this fail.  With an empty `AREA_INFO`
table, area `"A"` is active and unmapped, yet the update creates no
entity, adds nothing to the mapping, and passes nothing to
`async_add_entities`. -/
theorem claim_c1_counterexample :
    ("A" ∈ activeAreas [⟨"A", "2024-01-01 00:00:00"⟩]) ∧
    (([] : List (String × OrefAlertLocationEvent)).lookup "A" = none) ∧
    asyncUpdate [] [⟨"A", "2024-01-01 00:00:00"⟩] ⟨[], 0⟩ =
      some (⟨[], 0⟩, []) := by
  exact ⟨by decide, rfl, rfl⟩

/-- C1 (amended): for every area named by an active alert that has no
entity in the mapping *and has an `AREA_INFO` record*, `_async_update`
creates a new geolocation entity, adds it to the mapping, and passes it
to `async_add_entities`; and no entity is created for an area that
already has one. -/
theorem claim_c1_amended (areaInfo : AreaInfoTable) (alerts : List Alert)
    (s s' : ManagerState) (add : List OrefAlertLocationEvent)
    (h : asyncUpdate areaInfo alerts s = some (s', add)) :
    (∀ area, area ∈ activeAreas alerts →
      s.locationEvents.lookup area = none →
      (areaInfo.lookup area).isSome →
      ∃ e, (area, e) ∈ s'.locationEvents ∧ e ∈ add ∧ e.name = area) ∧
    (∀ e ∈ add, s.locationEvents.lookup e.name = none) := by
  obtain ⟨toAdd, heq, hF⟩ := asyncUpdate_spec areaInfo alerts s
  rw [h] at heq
  obtain ⟨hs', hadd⟩ := Prod.mk.injEq .. ▸ Option.some.inj heq
  constructor
  · intro area hactive hnone hsome
    have hmem : area ∈ updAddAreas areaInfo alerts s := by
      rw [updAddAreas, List.mem_filter]
      refine ⟨List.mem_dedup.mpr hactive, ?_⟩
      simp only [Bool.and_eq_true, decide_eq_true_eq]
      exact ⟨(lookup_eq_none_iff _ _).mp hnone, hsome⟩
    obtain ⟨p, hp, h1, h2, -⟩ := forall₂_mem_left hF area hmem
    refine ⟨p.2, ?_, ?_, h2⟩
    · rw [hs']
      have : (area, p.2) = p := by rw [← h1]
      rw [this]
      exact List.mem_append_right _ hp
    · rw [hadd]
      exact List.mem_map.mpr ⟨p, hp, rfl⟩
  · intro e he
    rw [hadd] at he
    obtain ⟨p, hp, hpe⟩ := List.mem_map.mp he
    obtain ⟨hname, hnotin, -⟩ := toAdd_mem_spec hF hp
    rw [← hpe, hname]
    exact (lookup_eq_none_iff _ _).mpr hnotin

/-- Witness for C1 (amended) at a concrete input. -/
theorem claim_c1_amended_witness :
    (∀ area, area ∈ activeAreas [⟨"A", "d"⟩] →
      (([] : List (String × OrefAlertLocationEvent)).lookup area = none) →
      (List.lookup area [("A", (⟨1, 2, "A-en"⟩ : AreaInfoRec))]).isSome →
      ∃ e, (area, e) ∈ [("A", (⟨"A", 1, 2, some "d"⟩ : OrefAlertLocationEvent))] ∧
        e ∈ [(⟨"A", 1, 2, some "d"⟩ : OrefAlertLocationEvent)] ∧ e.name = area) ∧
    (∀ e ∈ [(⟨"A", 1, 2, some "d"⟩ : OrefAlertLocationEvent)],
      (([] : List (String × OrefAlertLocationEvent)).lookup e.name = none)) :=
  claim_c1_amended [("A", ⟨1, 2, "A-en"⟩)] [⟨"A", "d"⟩] ⟨[], 0⟩
    ⟨[("A", ⟨"A", 1, 2, some "d"⟩)], 0⟩ [⟨"A", 1, 2, some "d"⟩] (by rfl)

/-- C2: `_async_update` never removes a mapping entry at the instant an
area disappears (every previously mapped entry survives the update), and
`_cleanup_entities`, once its 10-second sleep ends, re-reads the
active-alerts list and keeps exactly the mapped entries whose area is
active at that later time — so an area active again during the delay
keeps its entity, and mapped areas still inactive are removed. -/
theorem claim_c2_debounced_removal (areaInfo : AreaInfoTable)
    (alerts alertsLater : List Alert) (s s' : ManagerState)
    (add : List OrefAlertLocationEvent)
    (h : asyncUpdate areaInfo alerts s = some (s', add)) :
    cleanupDelaySeconds = 10 ∧
    (∀ p ∈ s.locationEvents, p ∈ s'.locationEvents) ∧
    (∀ p, p ∈ (cleanupEntities alertsLater s').locationEvents ↔
      p ∈ s'.locationEvents ∧ p.1 ∈ activeAreas alertsLater) := by
  refine ⟨rfl, ?_⟩
  obtain ⟨toAdd, heq, -⟩ := asyncUpdate_spec areaInfo alerts s
  rw [h] at heq
  obtain ⟨hs', -⟩ := Prod.mk.injEq .. ▸ Option.some.inj heq
  constructor
  · intro p hp
    rw [hs']
    exact List.mem_append_left _ hp
  · intro p
    simp [cleanupEntities, List.mem_filter]

/-- Witness for C2 at a concrete input: area `"A"` is mapped, the alert
list is empty at update time but `"A"` is active again when the cleanup
task fires. -/
theorem claim_c2_witness :
    cleanupDelaySeconds = 10 ∧
    (∀ p ∈ [("A", (⟨"A", 1, 2, some "d"⟩ : OrefAlertLocationEvent))],
      p ∈ (⟨[("A", ⟨"A", 1, 2, some "d"⟩)], 1⟩ : ManagerState).locationEvents) ∧
    (∀ p, p ∈ (cleanupEntities [⟨"A", "d2"⟩]
        (⟨[("A", ⟨"A", 1, 2, some "d"⟩)], 1⟩ : ManagerState)).locationEvents ↔
      p ∈ (⟨[("A", ⟨"A", 1, 2, some "d"⟩)], 1⟩ : ManagerState).locationEvents ∧
        p.1 ∈ activeAreas [⟨"A", "d2"⟩]) :=
  claim_c2_debounced_removal [] [] [⟨"A", "d2"⟩]
    ⟨[("A", ⟨"A", 1, 2, some "d"⟩)], 0⟩ ⟨[("A", ⟨"A", 1, 2, some "d"⟩)], 1⟩
    [] (by rfl)

/-- C5: the claim that at most one pending cleanup task exists fails:
every `_async_update` that sees a mapped-but-inactive area calls
`async_create_task` unconditionally, so two consecutive refreshes with
area `"A"` mapped and no active alerts leave two pending cleanup
tasks. -/
theorem claim_c5_counterexample :
    asyncUpdate [] [] ⟨[("A", ⟨"A", 1, 2, some "d"⟩)], 0⟩ =
      some (⟨[("A", ⟨"A", 1, 2, some "d"⟩)], 1⟩, []) ∧
    asyncUpdate [] [] ⟨[("A", ⟨"A", 1, 2, some "d"⟩)], 1⟩ =
      some (⟨[("A", ⟨"A", 1, 2, some "d"⟩)], 2⟩, []) := by
  exact ⟨rfl, rfl⟩

/-- C5 (amended): each `_async_update` call creates at most one new
cleanup task, but tasks from successive refreshes accumulate: nothing
prevents several pending cleanup tasks from coexisting. -/
theorem claim_c5_amended (areaInfo : AreaInfoTable) (alerts : List Alert)
    (s s' : ManagerState) (add : List OrefAlertLocationEvent)
    (h : asyncUpdate areaInfo alerts s = some (s', add)) :
    s'.pendingCleanups ≤ s.pendingCleanups + 1 := by
  obtain ⟨toAdd, heq, -⟩ := asyncUpdate_spec areaInfo alerts s
  rw [h] at heq
  obtain ⟨hs', -⟩ := Prod.mk.injEq .. ▸ Option.some.inj heq
  rw [hs']
  show updPending alerts s ≤ s.pendingCleanups + 1
  rw [updPending]
  split
  · exact le_rfl
  · exact Nat.le_succ _

/-- Witness for C5 (amended) at a concrete input. -/
theorem claim_c5_amended_witness :
    (⟨[("A", (⟨"A", 1, 2, some "d"⟩ : OrefAlertLocationEvent))], 1⟩ :
      ManagerState).pendingCleanups ≤
      (⟨[("A", ⟨"A", 1, 2, some "d"⟩)], 0⟩ : ManagerState).pendingCleanups + 1 :=
  claim_c5_amended [] [] ⟨[("A", ⟨"A", 1, 2, some "d"⟩)], 0⟩
    ⟨[("A", ⟨"A", 1, 2, some "d"⟩)], 1⟩ [] (by rfl)

/-- C8: `_async_update` completes without error even when an active alert
names an area absent from `AREA_INFO`: the membership guard makes the
`AREA_INFO` lookups inside entity construction unreachable, no created
entity bears that area, and the mapping gains no entry for it. -/
theorem claim_c8_skips_unknown_areas (areaInfo : AreaInfoTable)
    (alerts : List Alert) (s : ManagerState) (area : String)
    (harea : areaInfo.lookup area = none) :
    ∃ s' add, asyncUpdate areaInfo alerts s = some (s', add) ∧
      (∀ e ∈ add, e.name ≠ area) ∧
      (s.locationEvents.lookup area = none →
        s'.locationEvents.lookup area = none) := by
  obtain ⟨toAdd, heq, hF⟩ := asyncUpdate_spec areaInfo alerts s
  refine ⟨_, _, heq, ?_, ?_⟩
  · intro e he hename
    obtain ⟨p, hp, hpe⟩ := List.mem_map.mp he
    obtain ⟨hname, -, hsome⟩ := toAdd_mem_spec hF hp
    rw [hpe, hename] at hname
    rw [← hname, harea] at hsome
    exact Bool.noConfusion hsome
  · intro hnone
    show (s.locationEvents ++ toAdd).lookup area = none
    rw [List.lookup_append, hnone, Option.none_or]
    refine (lookup_eq_none_iff _ _).mpr ?_
    intro hmem
    obtain ⟨p, hp, hpa⟩ := List.mem_map.mp hmem
    obtain ⟨-, -, hsome⟩ := toAdd_mem_spec hF hp
    rw [hpa, harea] at hsome
    exact Bool.noConfusion hsome

/-- Witness for C8 at a concrete input: `AREA_INFO` is empty and area
`"X"` is active. -/
theorem claim_c8_witness :
    (List.lookup "X" ([] : AreaInfoTable) = none) ∧
    ∃ s' add, asyncUpdate [] [⟨"X", "d"⟩] ⟨[], 0⟩ = some (s', add) ∧
      (∀ e ∈ add, e.name ≠ "X") ∧
      ((⟨[], 0⟩ : ManagerState).locationEvents.lookup "X" = none →
        s'.locationEvents.lookup "X" = none) :=
  ⟨rfl, claim_c8_skips_unknown_areas [] [⟨"X", "d"⟩] ⟨[], 0⟩ "X" rfl⟩

/-- Membership in the clean-start fold: an entry survives iff it was in
the registry and its entity id is not that of any processed
geo_location entry. -/
theorem mem_foldl_clean (entries : List RegistryEntry) :
    ∀ (reg : List RegistryEntry) (e : RegistryEntry),
      (e ∈ entries.foldl
        (fun r en =>
          if en.domain == GEO_LOCATION then asyncRemove r en.entityId else r)
        reg) ↔
      (e ∈ reg ∧
        ∀ en ∈ entries, en.domain = GEO_LOCATION → e.entityId ≠ en.entityId) := by
  induction entries with
  | nil => intro reg e; simp
  | cons en entries ih =>
    intro reg e
    rw [List.foldl_cons]
    by_cases hgeo : en.domain = GEO_LOCATION
    · rw [if_pos (by simpa using hgeo)]
      rw [ih]
      unfold asyncRemove
      rw [List.mem_filter]
      constructor
      · rintro ⟨⟨he, hne⟩, hrest⟩
        refine ⟨he, ?_⟩
        intro x hx hxgeo
        rcases List.mem_cons.mp hx with rfl | hx
        · simpa using hne
        · exact hrest x hx hxgeo
      · rintro ⟨he, hall⟩
        refine ⟨⟨he, ?_⟩, fun x hx hxg => hall x (List.mem_cons_of_mem _ hx) hxg⟩
        simpa using hall en (List.mem_cons_self _ _) hgeo
    · rw [if_neg (by simpa using hgeo)]
      rw [ih]
      constructor
      · rintro ⟨he, hrest⟩
        refine ⟨he, ?_⟩
        intro x hx hxg
        rcases List.mem_cons.mp hx with rfl | hx
        · exact absurd hxg hgeo
        · exact hrest x hx hxg
      · rintro ⟨he, hall⟩
        exact ⟨he, fun x hx => hall x (List.mem_cons_of_mem _ hx)⟩

/-- C9: manager initialization performs a clean start.  When entity ids
are registry keys (no duplicates), `_async_clean_start` keeps exactly the
registry entries that are not geo_location entries of this config entry
— every entry of another platform is untouched — and `__init__` then
runs the first `_async_update` on the empty mapping, returning the
cleaned registry. -/
theorem claim_c9_clean_start (areaInfo : AreaInfoTable) (alerts : List Alert)
    (entryId : String) (registry : List RegistryEntry)
    (hnd : (registry.map (·.entityId)).Nodup) :
    (∀ e, e ∈ asyncCleanStart entryId registry ↔
      e ∈ registry ∧ ¬(e.configEntryId = entryId ∧ e.domain = GEO_LOCATION)) ∧
    (∀ e ∈ registry, e.domain ≠ GEO_LOCATION →
      e ∈ asyncCleanStart entryId registry) ∧
    ∃ s add, managerInit areaInfo entryId registry alerts =
      some (asyncCleanStart entryId registry, s, add) := by
  have hiff : ∀ e, e ∈ asyncCleanStart entryId registry ↔
      e ∈ registry ∧ ¬(e.configEntryId = entryId ∧ e.domain = GEO_LOCATION) := ?_
  refine ⟨hiff, fun e he hdom => (hiff e).mpr ⟨he, fun hh => hdom hh.2⟩, ?_⟩
  swap
  · intro e
    rw [asyncCleanStart, mem_foldl_clean]
    constructor
    · rintro ⟨he, hall⟩
      refine ⟨he, ?_⟩
      rintro ⟨hcfg, hdom⟩
      refine hall e ?_ hdom rfl
      rw [asyncEntriesForConfigEntry, List.mem_filter]
      exact ⟨he, by simpa using hcfg⟩
    · rintro ⟨he, hnot⟩
      refine ⟨he, ?_⟩
      intro en hen hgeo heid
      rw [asyncEntriesForConfigEntry, List.mem_filter] at hen
      obtain ⟨henr, hcfg⟩ := hen
      have : e = en := List.inj_on_of_nodup_map hnd he henr heid
      subst this
      exact hnot ⟨by simpa using hcfg, hgeo⟩
  · obtain ⟨toAdd, heq, -⟩ := asyncUpdate_spec areaInfo alerts ⟨[], 0⟩
    refine ⟨⟨(⟨[], 0⟩ : ManagerState).locationEvents ++ toAdd,
      updPending alerts ⟨[], 0⟩⟩, toAdd.map (·.2), ?_⟩
    unfold managerInit
    rw [heq]
    rfl

/-- Witness for C9 at a concrete registry holding a geo_location entry of
this config entry, a sensor entry of the same entry, and a geo_location
entry of another config entry. -/
theorem claim_c9_witness :
    (∀ e, e ∈ asyncCleanStart "ce1"
        [⟨"geo_location.a", "ce1", "geo_location"⟩,
         ⟨"sensor.b", "ce1", "sensor"⟩,
         ⟨"geo_location.c", "ce2", "geo_location"⟩] ↔
      e ∈ [⟨"geo_location.a", "ce1", "geo_location"⟩,
           ⟨"sensor.b", "ce1", "sensor"⟩,
           ⟨"geo_location.c", "ce2", "geo_location"⟩] ∧
        ¬(e.configEntryId = "ce1" ∧ e.domain = GEO_LOCATION)) ∧
    (∀ e ∈ [RegistryEntry.mk "geo_location.a" "ce1" "geo_location",
            RegistryEntry.mk "sensor.b" "ce1" "sensor",
            RegistryEntry.mk "geo_location.c" "ce2" "geo_location"],
      e.domain ≠ GEO_LOCATION →
      e ∈ asyncCleanStart "ce1"
        [⟨"geo_location.a", "ce1", "geo_location"⟩,
         ⟨"sensor.b", "ce1", "sensor"⟩,
         ⟨"geo_location.c", "ce2", "geo_location"⟩]) ∧
    ∃ s add, managerInit [] "ce1"
        [⟨"geo_location.a", "ce1", "geo_location"⟩,
         ⟨"sensor.b", "ce1", "sensor"⟩,
         ⟨"geo_location.c", "ce2", "geo_location"⟩] [] =
      some (asyncCleanStart "ce1"
        [⟨"geo_location.a", "ce1", "geo_location"⟩,
         ⟨"sensor.b", "ce1", "sensor"⟩,
         ⟨"geo_location.c", "ce2", "geo_location"⟩], s, add) :=
  claim_c9_clean_start [] [] "ce1" _ (by decide)

/-! ## Part B lemmas -/

theorem charListLe_total : ∀ a b, charListLe a b = true ∨ charListLe b a = true := by
  intro a
  induction a with
  | nil => intro b; left; rfl
  | cons c cs ih =>
    intro b
    cases b with
    | nil => right; rfl
    | cons d ds =>
      rw [charListLe, charListLe]
      by_cases h1 : c.toNat < d.toNat
      · left; simp [h1]
      · by_cases h2 : d.toNat < c.toNat
        · right; simp [h1, h2]
        · rcases ih ds with h | h
          · left; simp [h1, h2, h]
          · right; simp [h1, h2, h]

theorem charListLe_trans :
    ∀ a b c, charListLe a b = true → charListLe b c = true →
      charListLe a c = true := by
  intro a
  induction a with
  | nil => intro b c h1 h2; rfl
  | cons x xs ih =>
    intro b c h1 h2
    cases b with
    | nil => rw [charListLe] at h1; exact absurd h1 (by simp)
    | cons y ys =>
      cases c with
      | nil => rw [charListLe] at h2; exact absurd h2 (by simp)
      | cons z zs =>
        rw [charListLe] at h1 h2 ⊢
        by_cases hxy : x.toNat < y.toNat
        · by_cases hyz : y.toNat < z.toNat
          · have hlt : x.toNat < z.toNat := by omega
            simp [hlt]
          · by_cases hzy : z.toNat < y.toNat
            · simp [hyz, hzy] at h2
            · have hlt : x.toNat < z.toNat := by omega
              simp [hlt]
        · by_cases hyx : y.toNat < x.toNat
          · simp [hxy, hyx] at h1
          · by_cases hyz : y.toNat < z.toNat
            · have hlt : x.toNat < z.toNat := by omega
              simp [hlt]
            · by_cases hzy : z.toNat < y.toNat
              · simp [hyz, hzy] at h2
              · have hxz : ¬ x.toNat < z.toNat := by omega
                have hzx : ¬ z.toNat < x.toNat := by omega
                simp [hxy, hyx] at h1
                simp [hyz, hzy] at h2
                simp [hxz, hzx]
                exact ih ys zs h1 h2

theorem pysort_perm (l : List String) : List.Perm (pysort l) l :=
  List.perm_insertionSort pyLe l

theorem pysort_mem {a : String} {l : List String} : a ∈ pysort l ↔ a ∈ l :=
  (pysort_perm l).mem_iff

theorem pysort_nodup {l : List String} (h : l.Nodup) : (pysort l).Nodup :=
  ((pysort_perm l).nodup_iff).mpr h

theorem pysort_sorted (l : List String) : (pysort l).Sorted pyLe := by
  haveI : IsTotal String pyLe := ⟨fun a b => charListLe_total a.data b.data⟩
  haveI : IsTrans String pyLe :=
    ⟨fun a b c => charListLe_trans a.data b.data c.data⟩
  exact List.sorted_insertionSort pyLe l

/-- C4: whenever the `AREAS_AND_GROUPS` construction succeeds (its
no-duplicates assert passes), the table is a permutation of the
concatenation of the non-group areas, the city-group keys, and the
district-group keys, is sorted ascending in Python's string order, and
has no duplicate name. -/
theorem claim_c4_areas_and_groups (citiesMix : List CityMixRec)
    (districtsRaw : List DistrictRec) (l : List String)
    (h : areasAndGroups citiesMix districtsRaw = some l) :
    ∃ districtToAreas,
      districtToAreasMap districtsRaw (areasNoGroup (getAreas citiesMix))
          (cityToAreasMap (getAreas citiesMix) (areasNoGroup (getAreas citiesMix))) =
        some districtToAreas ∧
      l.Sorted pyLe ∧ l.Nodup ∧
      List.Perm l (areasNoGroup (getAreas citiesMix) ++
           (cityToAreasMap (getAreas citiesMix)
             (areasNoGroup (getAreas citiesMix))).map (·.1) ++
           districtToAreas.map (·.1)) := by
  simp only [areasAndGroups] at h
  cases hd : districtToAreasMap districtsRaw (areasNoGroup (getAreas citiesMix))
      (cityToAreasMap (getAreas citiesMix) (areasNoGroup (getAreas citiesMix))) with
  | none => rw [hd] at h; exact absurd h (by simp)
  | some d =>
    rw [hd] at h
    replace h : mkAreasAndGroups (areasNoGroup (getAreas citiesMix))
        ((cityToAreasMap (getAreas citiesMix)
          (areasNoGroup (getAreas citiesMix))).map (·.1))
        (d.map (·.1)) = some l := h
    rw [mkAreasAndGroups] at h
    split at h
    · obtain rfl := Option.some.inj h
      rename_i hlen
      refine ⟨d, rfl, pysort_sorted _, ?_, pysort_perm _⟩
      exact List.dedup_eq_self.mp
        ((List.dedup_sublist _).eq_of_length hlen.symm)
    · exact absurd h (by simp)

/-- Witness for C4 at the key-collision input: two all-areas labels strip
to the same city `"X"`, the city-group dict holds the key once (as
Python's dict does), and the no-duplicate assert passes. -/
theorem claim_c4_witness :
    ∃ districtToAreas,
      districtToAreasMap []
          (areasNoGroup (getAreas [⟨"X - כל האזורים", 1⟩,
            ⟨"X - כל האזורים - כל האזורים", 2⟩]))
          (cityToAreasMap
            (getAreas [⟨"X - כל האזורים", 1⟩,
              ⟨"X - כל האזורים - כל האזורים", 2⟩])
            (areasNoGroup (getAreas [⟨"X - כל האזורים", 1⟩,
              ⟨"X - כל האזורים - כל האזורים", 2⟩]))) =
        some districtToAreas ∧
      List.Sorted pyLe ["X - כל האזורים"] ∧
      List.Nodup ["X - כל האזורים"] ∧
      List.Perm ["X - כל האזורים"]
        (areasNoGroup (getAreas [⟨"X - כל האזורים", 1⟩,
          ⟨"X - כל האזורים - כל האזורים", 2⟩]) ++
         (cityToAreasMap
           (getAreas [⟨"X - כל האזורים", 1⟩,
             ⟨"X - כל האזורים - כל האזורים", 2⟩])
           (areasNoGroup (getAreas [⟨"X - כל האזורים", 1⟩,
             ⟨"X - כל האזורים - כל האזורים", 2⟩]))).map (·.1) ++
         districtToAreas.map (·.1)) :=
  claim_c4_areas_and_groups
    [⟨"X - כל האזורים", 1⟩, ⟨"X - כל האזורים - כל האזורים", 2⟩] []
    ["X - כל האזורים"] (by decide)

theorem strAppend_right_cancel {a b : String} (suf : String)
    (h : a ++ suf = b ++ suf) : a = b := by
  apply String.ext
  have hd : a.data ++ suf.data = b.data ++ suf.data := by
    rw [← String.data_append, ← String.data_append, h]
  exact List.append_cancel_right hd

theorem lookup_map_overwrite {β : Type} (k : String) (v : β) (k' : String)
    (hne : k' ≠ k) :
    ∀ m : List (String × β),
      (m.map (fun p => if p.1 == k then (k, v) else p)).lookup k' =
        m.lookup k' := by
  intro m
  induction m with
  | nil => rfl
  | cons p m ih =>
    obtain ⟨pk, pv⟩ := p
    rw [List.map_cons]
    by_cases hpk : pk = k
    · have h1 : (if ((pk, pv).1 == k) = true then (k, v) else (pk, pv)) =
          (k, v) := by
        simp [hpk]
      rw [h1, List.lookup, List.lookup, beq_eq_false_iff_ne.mpr hne,
        beq_eq_false_iff_ne.mpr (by rw [hpk]; exact hne)]
      exact ih
    · have h1 : (if ((pk, pv).1 == k) = true then (k, v) else (pk, pv)) =
          (pk, pv) := by
        simp [hpk]
      rw [h1, List.lookup, List.lookup]
      cases hk' : k' == pk
      · exact ih
      · rfl

theorem dictInsert_lookup_self {β : Type} (m : List (String × β)) (k : String)
    (v : β) : (dictInsert m k v).lookup k = some v := by
  rw [dictInsert]
  split
  · rename_i hany
    revert hany
    induction m with
    | nil => intro hany; simp at hany
    | cons p m ih =>
      intro hany
      obtain ⟨pk, pv⟩ := p
      rw [List.map_cons]
      by_cases hpk : pk = k
      · have h1 : (if ((pk, pv).1 == k) = true then (k, v) else (pk, pv)) =
            (k, v) := by
          simp [hpk]
        rw [h1, List.lookup, beq_self_eq_true]
      · have h1 : (if ((pk, pv).1 == k) = true then (k, v) else (pk, pv)) =
            (pk, pv) := by
          simp [hpk]
        rw [h1, List.lookup, beq_eq_false_iff_ne.mpr (fun hh => hpk hh.symm)]
        apply ih
        rcases List.any_eq_true.mp hany with ⟨q, hq, hqk⟩
        rcases List.mem_cons.mp hq with rfl | hq
        · exact absurd (by simpa using hqk) hpk
        · exact List.any_eq_true.mpr ⟨q, hq, hqk⟩
  · rename_i hany
    rw [List.lookup_append]
    have hnone : m.lookup k = none := by
      rw [lookup_eq_none_iff]
      intro hmem
      obtain ⟨p, hp, hpk⟩ := List.mem_map.mp hmem
      exact hany (List.any_eq_true.mpr ⟨p, hp, by simpa using hpk⟩)
    rw [hnone, Option.none_or, List.lookup, beq_self_eq_true]

theorem dictInsert_lookup_ne {β : Type} (m : List (String × β)) (k : String)
    (v : β) (k' : String) (hne : k' ≠ k) :
    (dictInsert m k v).lookup k' = m.lookup k' := by
  rw [dictInsert]
  split
  · exact lookup_map_overwrite k v k' hne m
  · rw [List.lookup_append]
    have hlast : List.lookup k' [(k, v)] = none := by
      rw [List.lookup, beq_eq_false_iff_ne.mpr hne]
      rfl
    rw [hlast, Option.or_none]

/-- Looking up a key of the dict built by the `_city_to_areas_map` loop:
keys determine cities (by right-cancellation of append), so re-assigned
keys always carry the value of their city and the lookup succeeds. -/
theorem foldl_dictInsert_lookup {β : Type} (f : String → β) (suf : String) :
    ∀ (cities : List String) (m₀ : List (String × β)) (city : String),
      (city ∈ cities ∨ m₀.lookup (city ++ suf) = some (f city)) →
      ((cities.foldl
        (fun m c => dictInsert m (c ++ suf) (f c)) m₀).lookup (city ++ suf)) =
        some (f city) := by
  intro cities
  induction cities with
  | nil =>
    intro m₀ city h
    rcases h with h | h
    · simp at h
    · exact h
  | cons c cs ih =>
    intro m₀ city h
    rw [List.foldl_cons]
    apply ih
    by_cases hcc : city = c
    · subst hcc
      right
      exact dictInsert_lookup_self _ _ _
    · rcases h with h | h
      · rcases List.mem_cons.mp h with h | h
        · exact absurd h hcc
        · left; exact h
      · right
        rw [dictInsert_lookup_ne]
        · exact h
        · exact fun hh => hcc (strAppend_right_cancel suf hh)

theorem strStartsWith_self (a : String) : strStartsWith a a = true :=
  List.isPrefixOf_iff_prefix.mpr (List.prefix_refl _)

/-- C7: for every backend area ending with the all-areas suffix, the
city-group table maps the key `city ++ " - כל האזורים"` (where `city` is
the area with the suffix stripped) to the duplicate-free sorted list of
exactly the non-group areas whose names start with the city name; the
city itself belongs to the list whenever it is a non-group area. -/
theorem claim_c7_city_groups (backendAreas : List String) (area : String)
    (hmem : area ∈ backendAreas)
    (hsuf : strEndsWith area CITY_ALL_AREAS_SUFFIX = true) :
    ∃ l,
      (cityToAreasMap backendAreas (areasNoGroup backendAreas)).lookup
        (strReplace area CITY_ALL_AREAS_SUFFIX "" ++ CITY_ALL_AREAS_SUFFIX) =
        some l ∧
      l.Sorted pyLe ∧ l.Nodup ∧
      (∀ a, a ∈ l ↔ a ∈ areasNoGroup backendAreas ∧
        strStartsWith a (strReplace area CITY_ALL_AREAS_SUFFIX "") = true) ∧
      (strReplace area CITY_ALL_AREAS_SUFFIX "" ∈ areasNoGroup backendAreas →
        strReplace area CITY_ALL_AREAS_SUFFIX "" ∈ l) := by
  have hcity : strReplace area CITY_ALL_AREAS_SUFFIX "" ∈
      getCitiesWithAllAreas backendAreas := by
    rw [getCitiesWithAllAreas]
    exact pysort_mem.mpr
      (List.mem_map.mpr ⟨area, List.mem_filter.mpr ⟨hmem, hsuf⟩, rfl⟩)
  refine ⟨_,
    foldl_dictInsert_lookup
      (fun c => pysort (((areasNoGroup backendAreas).filter
        (fun a => strStartsWith a c)).dedup))
      CITY_ALL_AREAS_SUFFIX (getCitiesWithAllAreas backendAreas) [] _
      (Or.inl hcity),
    pysort_sorted _, pysort_nodup (List.nodup_dedup _), ?_, ?_⟩
  · intro a
    rw [pysort_mem, List.mem_dedup, List.mem_filter]
  · intro hng
    rw [pysort_mem, List.mem_dedup, List.mem_filter]
    exact ⟨hng, strStartsWith_self _⟩

/-- Witness for C7 at a concrete input: backend areas hold one "all
areas" entry for city `"x"` plus non-group areas `"x1"` and `"y"`. -/
theorem claim_c7_witness :
    ∃ l,
      (cityToAreasMap ["x" ++ CITY_ALL_AREAS_SUFFIX, "x1", "y"]
        (areasNoGroup ["x" ++ CITY_ALL_AREAS_SUFFIX, "x1", "y"])).lookup
        (strReplace ("x" ++ CITY_ALL_AREAS_SUFFIX) CITY_ALL_AREAS_SUFFIX "" ++
          CITY_ALL_AREAS_SUFFIX) = some l ∧
      l.Sorted pyLe ∧ l.Nodup ∧
      (∀ a, a ∈ l ↔
        a ∈ areasNoGroup ["x" ++ CITY_ALL_AREAS_SUFFIX, "x1", "y"] ∧
        strStartsWith a
          (strReplace ("x" ++ CITY_ALL_AREAS_SUFFIX) CITY_ALL_AREAS_SUFFIX "") =
          true) ∧
      (strReplace ("x" ++ CITY_ALL_AREAS_SUFFIX) CITY_ALL_AREAS_SUFFIX "" ∈
          areasNoGroup ["x" ++ CITY_ALL_AREAS_SUFFIX, "x1", "y"] →
        strReplace ("x" ++ CITY_ALL_AREAS_SUFFIX) CITY_ALL_AREAS_SUFFIX "" ∈ l) :=
  claim_c7_city_groups ["x" ++ CITY_ALL_AREAS_SUFFIX, "x1", "y"]
    ("x" ++ CITY_ALL_AREAS_SUFFIX) (by decide) (by decide)

theorem lookup_isSome_iff {β : Type} (l : List (String × β)) (a : String) :
    (l.lookup a).isSome = true ↔ a ∈ l.map Prod.fst := by
  constructor
  · intro h
    cases hl : l.lookup a with
    | none => rw [hl] at h; simp at h
    | some b =>
      exact List.mem_map.mpr ⟨(a, b), mem_of_lookup_eq_some hl, rfl⟩
  · intro hmem
    cases hl : l.lookup a with
    | none => exact absurd ((lookup_eq_none_iff _ _).mp hl) (by simpa using hmem)
    | some b => rfl

theorem dictInsert_mem {β : Type} {m : List (String × β)} {k : String} {v : β}
    {p : String × β} (h : p ∈ dictInsert m k v) : p ∈ m ∨ p = (k, v) := by
  rw [dictInsert] at h
  split at h
  · obtain ⟨q, hq, hpq⟩ := List.mem_map.mp h
    by_cases hqk : q.1 = k
    · right
      rw [← hpq, if_pos (by simpa using hqk)]
    · left
      rw [← hpq, if_neg (by simpa using hqk)]
      exact hq
  · rcases List.mem_append.mp h with h | h
    · left; exact h
    · right; simpa using h

theorem dictInsert_keys {β : Type} (m : List (String × β)) (k : String) (v : β)
    (a : String) :
    a ∈ (dictInsert m k v).map Prod.fst ↔ a ∈ m.map Prod.fst ∨ a = k := by
  rw [dictInsert]
  split
  · rename_i hany
    rw [List.map_map]
    constructor
    · intro h
      obtain ⟨q, hq, hqa⟩ := List.mem_map.mp h
      simp only [Function.comp] at hqa
      by_cases hqk : q.1 = k
      · rw [if_pos (by simpa using hqk)] at hqa
        right
        exact hqa.symm
      · rw [if_neg (by simpa using hqk)] at hqa
        left
        exact List.mem_map.mpr ⟨q, hq, hqa⟩
    · intro h
      rcases h with h | rfl
      · obtain ⟨q, hq, hqa⟩ := List.mem_map.mp h
        refine List.mem_map.mpr ⟨q, hq, ?_⟩
        simp only [Function.comp]
        by_cases hqk : q.1 = k
        · rw [if_pos (by simpa using hqk)]
          show k = a
          rw [← hqk]
          exact hqa
        · rw [if_neg (by simpa using hqk)]
          exact hqa
      · obtain ⟨q, hq, hqk⟩ := List.any_eq_true.mp hany
        refine List.mem_map.mpr ⟨q, hq, ?_⟩
        simp only [Function.comp]
        rw [if_pos hqk]
  · rw [List.map_append]
    simp

theorem migunTimeDict_aux_mem (cm : List CityMixRec) :
    ∀ (m₀ : List (String × Int)) (p : String × Int),
      p ∈ cm.foldl
        (fun m r => dictInsert m (normalizeLabel r.label_he) r.migun_time) m₀ →
      p ∈ m₀ ∨ ∃ r ∈ cm, normalizeLabel r.label_he = p.1 ∧ r.migun_time = p.2 := by
  induction cm with
  | nil => intro m₀ p h; left; exact h
  | cons r cm ih =>
    intro m₀ p h
    rw [List.foldl_cons] at h
    rcases ih _ p h with h | ⟨r', hr', h1, h2⟩
    · rcases dictInsert_mem h with h | h
      · left; exact h
      · right
        exact ⟨r, List.mem_cons_self _ _, by rw [h], by rw [h]⟩
    · right
      exact ⟨r', List.mem_cons_of_mem _ hr', h1, h2⟩

theorem migunTimeDict_aux_keys (cm : List CityMixRec) :
    ∀ (m₀ : List (String × Int)) (a : String),
      (a ∈ (cm.foldl
        (fun m r => dictInsert m (normalizeLabel r.label_he) r.migun_time)
        m₀).map Prod.fst) ↔
      a ∈ m₀.map Prod.fst ∨ ∃ r ∈ cm, normalizeLabel r.label_he = a := by
  induction cm with
  | nil => intro m₀ a; simp
  | cons r cm ih =>
    intro m₀ a
    rw [List.foldl_cons, ih, dictInsert_keys, List.exists_mem_cons_iff]
    tauto

theorem migunTimeDict_mem {cm : List CityMixRec} {p : String × Int}
    (h : p ∈ migunTimeDict cm) :
    ∃ r ∈ cm, normalizeLabel r.label_he = p.1 ∧ r.migun_time = p.2 := by
  rcases migunTimeDict_aux_mem cm [] p h with h | h
  · simp at h
  · exact h

theorem migunTimeDict_keys {cm : List CityMixRec} {a : String} :
    a ∈ (migunTimeDict cm).map Prod.fst ↔
      ∃ r ∈ cm, normalizeLabel r.label_he = a := by
  rw [migunTimeDict, migunTimeDict_aux_keys]
  simp

theorem getAreas_mem {cm : List CityMixRec} {a : String} :
    a ∈ getAreas cm ↔ ∃ r ∈ cm, normalizeLabel r.label_he = a := by
  rw [getAreas, pysort_mem, List.mem_dedup, List.mem_map]

theorem areaToMigunTime_mem_iff {cm : List CityMixRec} {k : String} {v : Int} :
    (k, v) ∈ areaToMigunTimeMap cm ↔
      k ∈ (migunTimeDict cm).map Prod.fst ∧
      (migunTimeDict cm).lookup k = some v := by
  simp only [areaToMigunTimeMap]
  rw [List.mem_filterMap]
  constructor
  · rintro ⟨a, ha, hf⟩
    obtain ⟨vv, hvv, heq⟩ := Option.map_eq_some'.mp hf
    obtain ⟨rfl, rfl⟩ := Prod.mk.injEq .. ▸ heq
    exact ⟨pysort_mem.mp ha, hvv⟩
  · rintro ⟨hk, hv⟩
    exact ⟨k, pysort_mem.mpr hk, by rw [hv]; rfl⟩

/-- C6: the key set of `AREA_TO_MIGUN_TIME` equals the set of backend
area names (the normalized `label_he` values of the cities-mix dataset,
which is what `_get_areas` returns), and every key maps to the
`migun_time` of a cities-mix record bearing that normalized label. -/
theorem claim_c6_migun_map (citiesMix : List CityMixRec) :
    (∀ a, a ∈ (areaToMigunTimeMap citiesMix).map Prod.fst ↔
      a ∈ getAreas citiesMix) ∧
    (∀ k v, (k, v) ∈ areaToMigunTimeMap citiesMix →
      ∃ r ∈ citiesMix, normalizeLabel r.label_he = k ∧ r.migun_time = v) := by
  constructor
  · intro a
    rw [getAreas_mem, ← migunTimeDict_keys]
    constructor
    · intro h
      obtain ⟨p, hp, hpa⟩ := List.mem_map.mp h
      obtain ⟨k⟩ := p
      obtain rfl := hpa
      exact (areaToMigunTime_mem_iff.mp hp).1
    · intro h
      obtain ⟨v, hv⟩ :=
        Option.isSome_iff_exists.mp ((lookup_isSome_iff _ _).mpr h)
      exact List.mem_map.mpr ⟨(a, v), areaToMigunTime_mem_iff.mpr ⟨h, hv⟩, rfl⟩
  · intro k v h
    have hv := (areaToMigunTime_mem_iff.mp h).2
    exact migunTimeDict_mem (mem_of_lookup_eq_some hv)

/-- Witness-style instance of C6 at a concrete input (the theorem has no
hypothesis; this records a concrete evaluation). -/
theorem claim_c6_witness :
    (∀ a, a ∈ (areaToMigunTimeMap [⟨"b", 1⟩, ⟨"a", 2⟩, ⟨"a", 3⟩]).map Prod.fst ↔
      a ∈ getAreas [⟨"b", 1⟩, ⟨"a", 2⟩, ⟨"a", 3⟩]) ∧
    (∀ k v, (k, v) ∈ areaToMigunTimeMap [⟨"b", 1⟩, ⟨"a", 2⟩, ⟨"a", 3⟩] →
      ∃ r ∈ [CityMixRec.mk "b" 1, CityMixRec.mk "a" 2, CityMixRec.mk "a" 3],
        normalizeLabel r.label_he = k ∧ r.migun_time = v) :=
  claim_c6_migun_map [⟨"b", 1⟩, ⟨"a", 2⟩, ⟨"a", 3⟩]

theorem forall₂_map_fst_eq {β : Type} {R : String → String × β → Prop}
    {l : List String} {m : List (String × β)}
    (h : List.Forall₂ R l m) (hR : ∀ a p, R a p → p.1 = a) :
    m.map Prod.fst = l := by
  induction h with
  | nil => rfl
  | cons hr hf ih =>
    rw [List.map_cons, hR _ _ hr, ih]

/-- C3: whenever `_get_area_info` succeeds (both its asserts pass: the
`MISSING_CITIES` keys are disjoint from the tzevaadom cities, and every
non-group area is covered by one of the two), the generated mapping has
exactly the non-group areas as its key list, each taking its
`lat`/`long`/`en` from the tzevaadom record when the area is a tzevaadom
city and from `MISSING_CITIES` otherwise. -/
theorem claim_c3_area_info_merge (noGroup : List String)
    (tzevaCities : List (String × TzevaCity)) (m : List (String × AreaInfoRec))
    (h : getAreaInfo noGroup tzevaCities = some m) :
    m.map Prod.fst = noGroup ∧
    ∀ p ∈ m,
      (∀ c, tzevaCities.lookup p.1 = some c → p.2 = ⟨c.lat, c.lng, c.en⟩) ∧
      (tzevaCities.lookup p.1 = none →
        MISSING_CITIES.lookup p.1 = some p.2) := by
  unfold getAreaInfo at h
  by_cases h1 : ((MISSING_CITIES.map (·.1)).all
      (fun k => (tzevaCities.lookup k).isNone)) = true
  swap
  · exfalso
    simp only [guard, h1, if_false] at h
    exact Option.noConfusion h
  by_cases h2 : (noGroup.all (fun a =>
      (tzevaCities.lookup a).isSome || (MISSING_CITIES.lookup a).isSome)) = true
  swap
  · exfalso
    simp only [guard, h1, h2, if_true, if_false] at h
    exact Option.noConfusion h
  replace h : optionTraverse
      (fun area =>
        match tzevaCities.lookup area with
        | some c => some (area, AreaInfoRec.mk c.lat c.lng c.en)
        | none => (MISSING_CITIES.lookup area).map (fun info => (area, info)))
      noGroup = some m := by
    simpa only [guard, h1, h2, if_true] using h
  have hF := optionTraverse_forall₂ _ _ _ h
  have hR : ∀ (a : String) (p : String × AreaInfoRec),
      (match tzevaCities.lookup a with
       | some c => some (a, AreaInfoRec.mk c.lat c.lng c.en)
       | none => (MISSING_CITIES.lookup a).map (fun info => (a, info))) = some p →
      p.1 = a := by
    intro a p hp
    cases hl : tzevaCities.lookup a with
    | some c =>
      rw [hl] at hp
      obtain rfl := Option.some.inj hp
      rfl
    | none =>
      rw [hl] at hp
      obtain ⟨info, -, heq⟩ := Option.map_eq_some'.mp hp
      rw [← heq]
  refine ⟨forall₂_map_fst_eq hF hR, ?_⟩
  intro p hp
  obtain ⟨a, -, hfa⟩ := forall₂_mem_right hF p hp
  have hpa : p.1 = a := hR a p hfa
  rw [← hpa] at hfa
  constructor
  · intro c hc
    rw [hc] at hfa
    have heq := Option.some.inj hfa
    rw [← heq]
  · intro hnone
    rw [hnone] at hfa
    obtain ⟨info, hinfo, heq⟩ := Option.map_eq_some'.mp hfa
    rw [hinfo, ← heq]

/-- Witness for C3 at a concrete input: one non-group area that is a
tzevaadom city. -/
theorem claim_c3_witness :
    List.map Prod.fst [("q", (⟨1, 2, "Q"⟩ : AreaInfoRec))] = ["q"] ∧
    ∀ p ∈ [("q", (⟨1, 2, "Q"⟩ : AreaInfoRec))],
      (∀ c, List.lookup p.1 [("q", (⟨5, 1, 2, "Q"⟩ : TzevaCity))] = some c →
        p.2 = ⟨c.lat, c.lng, c.en⟩) ∧
      (List.lookup p.1 [("q", (⟨5, 1, 2, "Q"⟩ : TzevaCity))] = none →
        MISSING_CITIES.lookup p.1 = some p.2) :=
  claim_c3_area_info_merge ["q"] [("q", ⟨5, 1, 2, "Q"⟩)]
    [("q", ⟨1, 2, "Q"⟩)] (by decide)

theorem filterMap_keyed_sublist {β : Type} (f : String → Option (String × β))
    (hf : ∀ c p, f c = some p → p.1 = c) :
    ∀ l : List String, ((l.filterMap f).map Prod.fst).Sublist l := by
  intro l
  induction l with
  | nil => simp
  | cons c l ih =>
    rw [List.filterMap_cons]
    cases hc : f c with
    | none => exact List.Sublist.cons c ih
    | some p =>
      rw [List.map_cons, hf c p hc]
      exact List.Sublist.cons₂ c ih

theorem polygonEntry_eq_some (tzevaCities : List (String × TzevaCity))
    (tzevaPolygons : List (String × List (List ℚ))) (city : String)
    (p : String × List (List ℚ)) :
    ((tzevaCities.lookup city).bind (fun c =>
      (tzevaPolygons.lookup (toString c.id)).bind (fun poly =>
        some (city, poly)))) = some p ↔
    ∃ c, tzevaCities.lookup city = some c ∧
      tzevaPolygons.lookup (toString c.id) = some p.2 ∧ p.1 = city := by
  cases hl : tzevaCities.lookup city with
  | none => simp
  | some c =>
    constructor
    · intro h
      have hb : ((tzevaPolygons.lookup (toString c.id)).bind (fun poly =>
          some (city, poly))) = some p := h
      cases hp : tzevaPolygons.lookup (toString c.id) with
      | none => rw [hp] at hb; exact absurd hb (by simp)
      | some poly =>
        rw [hp] at hb
        have heq : (city, poly) = p := Option.some.inj hb
        refine ⟨c, rfl, ?_, ?_⟩
        · rw [← heq]
          exact hp
        · rw [← heq]
    · rintro ⟨c', hc', hp', h1⟩
      obtain rfl : c = c' := Option.some.inj hc'
      show ((tzevaPolygons.lookup (toString c.id)).bind (fun poly =>
        some (city, poly))) = some p
      rw [hp']
      show some (city, p.2) = some p
      rw [← h1]

/-- C10: the polygon table's key list is sorted; a key occurs iff it is a
non-group area that is a tzevaadom city whose id (as a string) has a
polygon entry; and each key maps to that polygon entry. -/
theorem claim_c10_area_to_polygon (tzevaCities : List (String × TzevaCity))
    (tzevaPolygons : List (String × List (List ℚ))) (noGroup : List String) :
    ((getAreaToPolygon tzevaCities tzevaPolygons noGroup).map Prod.fst).Sorted
      pyLe ∧
    (∀ k, k ∈ (getAreaToPolygon tzevaCities tzevaPolygons noGroup).map Prod.fst ↔
      (k ∈ noGroup ∧ ∃ c, tzevaCities.lookup k = some c ∧
        (tzevaPolygons.lookup (toString c.id)).isSome = true)) ∧
    (∀ k poly, (k, poly) ∈ getAreaToPolygon tzevaCities tzevaPolygons noGroup →
      ∃ c, tzevaCities.lookup k = some c ∧
        tzevaPolygons.lookup (toString c.id) = some poly) := by
  have hf : ∀ (c : String) (p : String × List (List ℚ)),
      ((tzevaCities.lookup c).bind (fun cc =>
        (tzevaPolygons.lookup (toString cc.id)).bind (fun poly =>
          some (c, poly)))) = some p → p.1 = c := by
    intro c p hp
    exact ((polygonEntry_eq_some _ _ _ _).mp hp).choose_spec.2.2
  refine ⟨?_, ?_, ?_⟩
  · exact List.Pairwise.sublist (filterMap_keyed_sublist _ hf _) (pysort_sorted _)
  · intro k
    constructor
    · intro h
      obtain ⟨p, hp, rfl⟩ := List.mem_map.mp h
      obtain ⟨city, hcity, hfc⟩ := List.mem_filterMap.mp hp
      obtain ⟨c, hc, hpoly, h1⟩ := (polygonEntry_eq_some _ _ _ _).mp hfc
      rw [h1]
      have hcl := pysort_mem.mp hcity
      rw [List.mem_dedup, List.mem_filter] at hcl
      exact ⟨by simpa using hcl.2, c, hc, by rw [hpoly]; rfl⟩
    · rintro ⟨hng, c, hc, hpoly⟩
      obtain ⟨poly, hpoly'⟩ := Option.isSome_iff_exists.mp hpoly
      have hkeys : k ∈ tzevaCities.map Prod.fst :=
        List.mem_map.mpr ⟨(k, c), mem_of_lookup_eq_some hc, rfl⟩
      have hcl : k ∈ pysort (((tzevaCities.map (·.1)).filter
          (fun c => decide (c ∈ noGroup))).dedup) := by
        rw [pysort_mem, List.mem_dedup, List.mem_filter]
        exact ⟨hkeys, by simpa using hng⟩
      refine List.mem_map.mpr ⟨(k, poly), ?_, rfl⟩
      refine List.mem_filterMap.mpr ⟨k, hcl, ?_⟩
      exact (polygonEntry_eq_some _ _ _ _).mpr ⟨c, hc, hpoly', rfl⟩
  · intro k poly h
    obtain ⟨city, -, hfc⟩ := List.mem_filterMap.mp h
    obtain ⟨c, hc, hpoly, h1⟩ := (polygonEntry_eq_some _ _ _ _).mp hfc
    rw [← h1] at hc
    exact ⟨c, hc, hpoly⟩

/-- Witness-style instance of C10 at a concrete input (the theorem has no
hypothesis; this records a concrete evaluation). -/
theorem claim_c10_witness :
    ((getAreaToPolygon [("q", ⟨5, 1, 2, "Q"⟩), ("r", ⟨6, 1, 2, "R"⟩)]
        [("5", [[1, 2]])] ["q", "r", "s"]).map Prod.fst).Sorted pyLe ∧
    (∀ k, k ∈ (getAreaToPolygon [("q", ⟨5, 1, 2, "Q"⟩), ("r", ⟨6, 1, 2, "R"⟩)]
        [("5", [[1, 2]])] ["q", "r", "s"]).map Prod.fst ↔
      (k ∈ ["q", "r", "s"] ∧
        ∃ c, List.lookup k [("q", (⟨5, 1, 2, "Q"⟩ : TzevaCity)),
          ("r", ⟨6, 1, 2, "R"⟩)] = some c ∧
        (List.lookup (toString c.id) [("5", [[(1 : ℚ), 2]])]).isSome = true)) ∧
    (∀ k poly, (k, poly) ∈ getAreaToPolygon
        [("q", ⟨5, 1, 2, "Q"⟩), ("r", ⟨6, 1, 2, "R"⟩)]
        [("5", [[1, 2]])] ["q", "r", "s"] →
      ∃ c, List.lookup k [("q", (⟨5, 1, 2, "Q"⟩ : TzevaCity)),
          ("r", ⟨6, 1, 2, "R"⟩)] = some c ∧
        List.lookup (toString c.id) [("5", [[(1 : ℚ), 2]])] = some poly) :=
  claim_c10_area_to_polygon [("q", ⟨5, 1, 2, "Q"⟩), ("r", ⟨6, 1, 2, "R"⟩)]
    [("5", [[1, 2]])] ["q", "r", "s"]

end OrefAlert
